import Mathlib

/-!
Verification development for the YOLO object-detection demo's numeric
pipeline. The embedded code is the server-side core: the letterbox
parameter computation of `preprocess` (preprocess.ts) and the whole of
`postprocess` (postprocess.ts): output-shape resolution, per-candidate
decoding with confidence/coordinate sniffing, inverse letterboxing with
clamping, and greedy non-max suppression with a cardinality cap.

Modelling conventions: JavaScript numbers are modelled as real numbers
(letterbox arithmetic, which is exact, over the rationals); typed-array
reads `data[k] ?? 0` become `List.getD k 0`; `Math.floor` on naturals is
natural division; thrown `InferenceError`s become an `Except` error value.
-/

namespace Yolo

/-- Final detection record (types.ts `Detection`). The source field `class`
is a reserved word in Lean, so it is named `cls` here. -/
structure Detection where
  x1 : ℝ
  y1 : ℝ
  x2 : ℝ
  y2 : ℝ
  confidence : ℝ
  cls : ℕ

/-- Letterbox transform parameters handed from `preprocess` to
`postprocess` (preprocess.ts `LetterboxInfo`). -/
structure LetterboxInfo where
  ratio : ℝ
  padX : ℝ
  padY : ℝ
  origWidth : ℝ
  origHeight : ℝ

/-- postprocess.ts `MODEL_SIZE = 640`. -/
def MODEL_SIZE : ℝ := 640

/-- postprocess.ts `NUM_CLASSES = 80`. -/
def NUM_CLASSES : ℕ := 80

/-- postprocess.ts `STRIDE = 4 + NUM_CLASSES = 84`. -/
def STRIDE : ℕ := 84

/-- postprocess.ts `CONFIDENCE_THRESHOLD = 0.5`. -/
noncomputable def CONFIDENCE_THRESHOLD : ℝ := 0.5

/-- postprocess.ts `IOU_THRESHOLD = 0.45`. -/
noncomputable def IOU_THRESHOLD : ℝ := 0.45

/-- postprocess.ts `MAX_DETECTIONS = 100`. -/
def MAX_DETECTIONS : ℕ := 100

/-- The two `InferenceError` throws of postprocess.ts: an empty/malformed
dims list ("Invalid output tensor shape") and a non-positive candidate
count ("Invalid number of detections"). -/
inductive InferenceError where
  | invalidOutputShape : InferenceError
  | invalidNumDetections : InferenceError

/-- postprocess.ts `sigmoid`. -/
noncomputable def sigmoid (x : ℝ) : ℝ := 1 / (1 + Real.exp (-x))

/-- postprocess.ts `iou`: intersection area over union area, 0 when the
union is 0. -/
noncomputable def iou (box1 box2 : Detection) : ℝ :=
  let x1 := max box1.x1 box2.x1
  let y1 := max box1.y1 box2.y1
  let x2 := min box1.x2 box2.x2
  let y2 := min box1.y2 box2.y2
  let intersection := max 0 (x2 - x1) * max 0 (y2 - y1)
  let area1 := (box1.x2 - box1.x1) * (box1.y2 - box1.y1)
  let area2 := (box2.x2 - box2.x1) * (box2.y2 - box2.y1)
  let union := area1 + area2 - intersection
  if union = 0 then 0 else intersection / union

/-- The argmax loop of postprocess.ts lines 122-130: `maxRawScore` starts
at `-Infinity` and `maxClass` at 0, and iteration `j` replaces the pair
whenever `raw > maxRawScore`. `scanMax f n` is the state after the
iterations `j < n`; the `none` state models the initial `-Infinity`, which
every real number beats, so the first iteration always records `(f 0, 0)`. -/
noncomputable def scanMax (f : ℕ → ℝ) : ℕ → Option (ℝ × ℕ)
  | 0 => none
  | n + 1 =>
    match scanMax f n with
    | none => some (f n, n)
    | some (m, c) => if f n > m then some (f n, n) else some (m, c)

/-- `(maxRawScore, maxClass)` of candidate row `i`. The default `(0, 0)` is
never consulted: `NUM_CLASSES = 80 > 0`, so the scan returns `some`. -/
noncomputable def rowMaxRaw (accessData : List ℝ) (i : ℕ) : ℝ × ℕ :=
  (scanMax (fun j => accessData.getD (i * STRIDE + 4 + j) 0) NUM_CLASSES).getD (0, 0)

/-- The confidence postprocess.ts lines 132-134 computes for row `i`:
a raw maximum outside `[0, 1]` is treated as a logit and passed through
`sigmoid`, otherwise it is used directly. -/
noncomputable def rowConfidence (accessData : List ℝ) (i : ℕ) : ℝ :=
  let maxRawScore := (rowMaxRaw accessData i).1
  if maxRawScore < 0 ∨ maxRawScore > 1 then sigmoid maxRawScore else maxRawScore

/-- The Detection postprocess.ts lines 116-191 builds from candidate row
`i`: box fields are read at `offset .. offset+3`, scaled by `MODEL_SIZE`
when the heuristic `looksNormalized` holds, converted from center to
corner format, un-letterboxed per axis and clamped into
`[0, origWidth] × [0, origHeight]`. -/
noncomputable def decodeRow (accessData : List ℝ) (letterbox : LetterboxInfo) (i : ℕ) :
    Detection :=
  let offset := i * STRIDE
  let xCenter := accessData.getD offset 0
  let yCenter := accessData.getD (offset + 1) 0
  let width := accessData.getD (offset + 2) 0
  let height := accessData.getD (offset + 3) 0
  let looksNormalized := |width| ≤ 2 ∧ |height| ≤ 2 ∧ xCenter ≤ 2 ∧ yCenter ≤ 2
  let xCenterPx := if looksNormalized then xCenter * MODEL_SIZE else xCenter
  let yCenterPx := if looksNormalized then yCenter * MODEL_SIZE else yCenter
  let widthPx := if looksNormalized then width * MODEL_SIZE else width
  let heightPx := if looksNormalized then height * MODEL_SIZE else height
  let x1Model := xCenterPx - widthPx / 2
  let y1Model := yCenterPx - heightPx / 2
  let x2Model := xCenterPx + widthPx / 2
  let y2Model := yCenterPx + heightPx / 2
  { x1 := max 0 (min letterbox.origWidth ((x1Model - letterbox.padX) / letterbox.ratio))
    y1 := max 0 (min letterbox.origHeight ((y1Model - letterbox.padY) / letterbox.ratio))
    x2 := max 0 (min letterbox.origWidth ((x2Model - letterbox.padX) / letterbox.ratio))
    y2 := max 0 (min letterbox.origHeight ((y2Model - letterbox.padY) / letterbox.ratio))
    confidence := rowConfidence accessData i
    cls := (rowMaxRaw accessData i).2 }

/-- The decode loop of postprocess.ts lines 112-193, started at row `i`
with `n` rows to go: it stops at the first row whose 84 entries do not fit
in the buffer (`offset + STRIDE > accessData.length` → `break`), and
pushes a row's Detection exactly when its confidence exceeds the
threshold. -/
noncomputable def decodeRows (accessData : List ℝ) (letterbox : LetterboxInfo) :
    ℕ → ℕ → List Detection
  | _, 0 => []
  | i, n + 1 =>
    if i * STRIDE + STRIDE > accessData.length then []
    else
      let d := decodeRow accessData letterbox i
      if d.confidence > CONFIDENCE_THRESHOLD then
        d :: decodeRows accessData letterbox (i + 1) n
      else
        decodeRows accessData letterbox (i + 1) n

/-- postprocess.ts `transposeData`: the channel-major buffer is copied so
that `accessData[i*stride + c] = data[c*numDetections + i] ?? 0`. Every
index `k < numDetections*stride` is `i*stride + c` for exactly one pair
`(i, c)` with `c < stride`, namely `i = k / stride`, `c = k % stride`. -/
def transposeData (data : List ℝ) (numDetections stride : ℕ) : List ℝ :=
  (List.range (numDetections * stride)).map fun k =>
    data.getD (k % stride * numDetections + k / stride) 0

/-- The shape-resolution block of postprocess.ts lines 73-103: decides
`(numDetections, isTransposed)` from the reported dims, with the
`[1, 84, 8400]` / `[1, 8400, 84]` fast paths, the rank-2 `[84, N]` /
`[N, 84]` paths, and `floor(length / STRIDE)` as the fallback; errors on
an empty dims list or a zero candidate count (`numDetections ≤ 0` on
naturals is `= 0`, and a natural is always finite). -/
def resolveShape (shape : List ℕ) (dataLength : ℕ) : Except InferenceError (ℕ × Bool) :=
  if shape.length = 0 then Except.error InferenceError.invalidOutputShape
  else
    let p : ℕ × Bool :=
      if shape.length = 3 ∧ shape.getD 0 0 = 1 then
        if shape.getD 1 0 = 84 ∧ shape.getD 2 0 = 8400 then (8400, true)
        else if shape.getD 1 0 = 8400 ∧ shape.getD 2 0 = 84 then (8400, false)
        else (dataLength / STRIDE, false)
      else if shape.length = 2 then
        if shape.getD 0 0 = 84 then (shape.getD 1 8400, true)
        else (shape.getD 0 8400, false)
      else (dataLength / STRIDE, false)
    if p.1 = 0 then Except.error InferenceError.invalidNumDetections else Except.ok p

/-- The comparator of postprocess.ts line 33, `(a, b) => b.confidence -
a.confidence`, as the "may come first" relation of a stable sort:
`a` may precede `b` exactly when `b.confidence ≤ a.confidence`. -/
noncomputable def confLE (a b : Detection) : Bool :=
  decide (b.confidence ≤ a.confidence)

/-- The while loop of postprocess.ts `nms` lines 36-47: pop the first
remaining candidate, keep it, and delete every remaining candidate whose
IoU with it exceeds the threshold (the backwards splice deletes exactly
the candidates failing the filter predicate). -/
noncomputable def nmsLoop (iouThreshold : ℝ) : List Detection → List Detection
  | [] => []
  | current :: rest =>
    current :: nmsLoop iouThreshold (rest.filter fun c => !decide (iou current c > iouThreshold))
termination_by l => l.length
decreasing_by
  simpa using Nat.lt_succ_of_le (List.length_filter_le _ _)

/-- postprocess.ts `nms`: sort by confidence descending (JavaScript's
`sort` is stable) and run the suppression loop. -/
noncomputable def nms (detections : List Detection) (iouThreshold : ℝ) : List Detection :=
  nmsLoop iouThreshold (detections.mergeSort confLE)

/-- postprocess.ts `postprocess`: resolve the shape, transpose to
candidate-major when needed, decode, suppress, and truncate to
`MAX_DETECTIONS` (`.slice(0, 100)`). -/
noncomputable def postprocess (data : List ℝ) (shape : List ℕ) (letterbox : LetterboxInfo) :
    Except InferenceError (List Detection) :=
  match resolveShape shape data.length with
  | Except.error e => Except.error e
  | Except.ok (numDetections, isTransposed) =>
    let accessData := if isTransposed then transposeData data numDetections STRIDE else data
    Except.ok ((nms (decodeRows accessData letterbox 0 numDetections) IOU_THRESHOLD).take
      MAX_DETECTIONS)

/-- The letterbox quantities of preprocess.ts lines 266-272 (exact over
the rationals: `MODEL_SIZE` is 640 there too, `Math.round` rounds half
towards positive infinity, which is Mathlib's `round`, and `Math.floor`
is `Int.floor`). -/
structure LetterboxParams where
  ratio : ℚ
  newWidth : ℤ
  newHeight : ℤ
  padLeft : ℤ
  padTop : ℤ
  padRight : ℤ
  padBottom : ℤ

/-- preprocess.ts lines 266-272: `ratio = min(640/w, 640/h)`, rounded
content size, floor-halved left/top pads, remainder right/bottom pads. -/
def letterboxParams (origWidth origHeight : ℕ) : LetterboxParams :=
  let ratio : ℚ := min (640 / (origWidth : ℚ)) (640 / (origHeight : ℚ))
  let newWidth : ℤ := round ((origWidth : ℚ) * ratio)
  let newHeight : ℤ := round ((origHeight : ℚ) * ratio)
  let padLeft : ℤ := ⌊((640 : ℚ) - (newWidth : ℚ)) / 2⌋
  let padTop : ℤ := ⌊((640 : ℚ) - (newHeight : ℚ)) / 2⌋
  { ratio := ratio
    newWidth := newWidth
    newHeight := newHeight
    padLeft := padLeft
    padTop := padTop
    padRight := 640 - newWidth - padLeft
    padBottom := 640 - newHeight - padTop }

/-- A letterbox transform for a 640×640 source: unit scale, no padding.
Used as the concrete transform in the evaluation lemmas below. -/
noncomputable def lbSquare : LetterboxInfo :=
  { ratio := 1, padX := 0, padY := 0, origWidth := 640, origHeight := 640 }

/-- One concrete candidate row (84 entries): normalized-looking box
`xCenter = yCenter = 1`, `width = height = 2`, all 80 class scores 1. -/
noncomputable def rowHit : List ℝ := 1 :: 1 :: 2 :: 2 :: List.replicate 80 1

/-- The detection `rowHit` decodes to under `lbSquare`. -/
noncomputable def dHit : Detection :=
  { x1 := 0, y1 := 0, x2 := 640, y2 := 640, confidence := 1, cls := 0 }

/-- A concrete candidate row with negative width and height (`-1` each),
class scores all 1. -/
noncomputable def rowNeg : List ℝ := 1 :: 1 :: (-1) :: (-1) :: List.replicate 80 1

/-- The detection `rowNeg` decodes to under `lbSquare`: its corners come
out reversed (`x1 > x2`, `y1 > y2`). -/
noncomputable def dNeg : Detection :=
  { x1 := 640, y1 := 640, x2 := 320, y2 := 320, confidence := 1, cls := 0 }

/-- Two heavily overlapping concrete boxes with different confidences. -/
noncomputable def boxHigh : Detection :=
  { x1 := 0, y1 := 0, x2 := 10, y2 := 10, confidence := 0.9, cls := 0 }

/-- The lower-confidence of the two concrete overlapping boxes. -/
noncomputable def boxLow : Detection :=
  { x1 := 0, y1 := 0, x2 := 10, y2 := 10, confidence := 0.8, cls := 1 }

lemma mergeSort_pair {α : Type} (le : α → α → Bool) (a b : α) :
    List.mergeSort [a, b] le = if le a b then [a, b] else [b, a] := by
  rw [List.mergeSort]
  simp [List.splitInTwo, List.splitAt, List.splitAt.go, List.merge]

lemma iou_symm (a b : Detection) : iou a b = iou b a := by
  simp only [iou]
  rw [max_comm a.x1 b.x1, max_comm a.y1 b.y1, min_comm a.x2 b.x2, min_comm a.y2 b.y2,
    add_comm ((a.x2 - a.x1) * (a.y2 - a.y1)) ((b.x2 - b.x1) * (b.y2 - b.y1))]

lemma nmsLoop_mem {t : ℝ} : ∀ (l : List Detection) (d : Detection), d ∈ nmsLoop t l → d ∈ l
  | [], d, h => by simp [nmsLoop] at h
  | current :: rest, d, h => by
    rw [nmsLoop] at h
    rcases List.mem_cons.mp h with h | h
    · exact h ▸ List.mem_cons_self _ _
    · exact List.mem_cons_of_mem _ (List.mem_of_mem_filter (nmsLoop_mem _ _ h))
termination_by l => l.length
decreasing_by
  simpa using Nat.lt_succ_of_le (List.length_filter_le _ _)

lemma nmsLoop_pairwise {t : ℝ} : ∀ l : List Detection,
    (nmsLoop t l).Pairwise fun a b => ¬ t < iou a b
  | [] => by rw [nmsLoop]; exact List.Pairwise.nil
  | current :: rest => by
    rw [nmsLoop]
    refine List.Pairwise.cons (fun b hb => ?_) (nmsLoop_pairwise _)
    have hfb := List.of_mem_filter (nmsLoop_mem _ _ hb)
    simpa using hfb
termination_by l => l.length
decreasing_by
  simpa using Nat.lt_succ_of_le (List.length_filter_le _ _)

lemma nmsLoop_sorted {t : ℝ} : ∀ l : List Detection,
    l.Pairwise (fun a b => confLE a b = true) →
    (nmsLoop t l).Pairwise fun a b => confLE a b = true
  | [], _ => by rw [nmsLoop]; exact List.Pairwise.nil
  | current :: rest, h => by
    rcases List.pairwise_cons.mp h with ⟨h1, h2⟩
    rw [nmsLoop]
    refine List.Pairwise.cons (fun b hb => ?_) ?_
    · exact h1 b (List.mem_of_mem_filter (nmsLoop_mem _ _ hb))
    · exact nmsLoop_sorted _ (List.Pairwise.sublist (List.filter_sublist _) h2)
termination_by l => l.length
decreasing_by
  simpa using Nat.lt_succ_of_le (List.length_filter_le _ _)

lemma nmsLoop_fixpoint {t : ℝ} : ∀ l : List Detection,
    l.Pairwise (fun a b => ¬ t < iou a b) → nmsLoop t l = l
  | [], _ => by rw [nmsLoop]
  | current :: rest, h => by
    rcases List.pairwise_cons.mp h with ⟨h1, h2⟩
    rw [nmsLoop, List.filter_eq_self.mpr fun b hb => by simpa using h1 b hb,
      nmsLoop_fixpoint _ h2]
termination_by l => l.length
decreasing_by
  simp

lemma confLE_trans : ∀ a b c : Detection, confLE a b → confLE b c → confLE a c := by
  intro a b c hab hbc
  simp only [confLE, decide_eq_true_eq] at hab hbc ⊢
  exact le_trans hbc hab

lemma confLE_total : ∀ a b : Detection, confLE a b || confLE b a := by
  intro a b
  simp only [confLE, Bool.or_eq_true, decide_eq_true_eq]
  exact le_total b.confidence a.confidence

/-- C3: for an input list of exactly two boxes whose IoU exceeds the 0.45
threshold and whose confidences differ, the Suppressor returns exactly the
higher-confidence box. -/
theorem C3_two_box_suppression (a b : Detection)
    (hiou : IOU_THRESHOLD < iou a b) (hne : a.confidence ≠ b.confidence) :
    nms [a, b] IOU_THRESHOLD = [if b.confidence < a.confidence then a else b] := by
  rcases lt_or_gt_of_ne hne with hlt | hgt
  · have hle : confLE a b = false := by
      simp only [confLE, decide_eq_false_iff_not]
      exact not_le.mpr hlt
    rw [nms, mergeSort_pair, hle, if_neg (by simp), nmsLoop,
      List.filter_cons_of_neg (by simp [← iou_symm a b]; exact hiou),
      List.filter_nil, nmsLoop, if_neg (not_lt.mpr (le_of_lt hlt))]
  · have hle : confLE a b = true := by
      simp only [confLE, decide_eq_true_eq]
      exact le_of_lt hgt
    rw [nms, mergeSort_pair, hle, if_pos rfl, nmsLoop,
      List.filter_cons_of_neg (by simp; exact hiou),
      List.filter_nil, nmsLoop, if_pos hgt]

/-- C7: the Suppressor is idempotent: applied to its own output it returns
that output unchanged. -/
theorem C7_suppressor_idempotent (l : List Detection) :
    nms (nms l IOU_THRESHOLD) IOU_THRESHOLD = nms l IOU_THRESHOLD := by
  have hs : (nms l IOU_THRESHOLD).Pairwise fun a b => confLE a b = true :=
    nmsLoop_sorted _ (List.sorted_mergeSort confLE_trans confLE_total l)
  rw [nms, List.mergeSort_of_sorted hs]
  exact nmsLoop_fixpoint _ (nmsLoop_pairwise _)

/-- C10: every detection the Suppressor returns is an element of its input
list, and any two detections of the output overlap by at most the IoU
threshold (in both argument orders, IoU being symmetric). -/
theorem C10_suppressor_invariants (l : List Detection) :
    (∀ d ∈ nms l IOU_THRESHOLD, d ∈ l) ∧
    (nms l IOU_THRESHOLD).Pairwise
      (fun a b => iou a b ≤ IOU_THRESHOLD ∧ iou b a ≤ IOU_THRESHOLD) := by
  constructor
  · intro d hd
    exact List.mem_mergeSort.mp (nmsLoop_mem _ _ hd)
  · refine List.Pairwise.imp ?_ (nmsLoop_pairwise _)
    intro a b hab
    exact ⟨not_lt.mp hab, by rw [iou_symm b a]; exact not_lt.mp hab⟩

lemma scanMax_spec (f : ℕ → ℝ) : ∀ n : ℕ,
    n = 0 ∨ ∃ m c, scanMax f n = some (m, c) ∧ c < n ∧ m = f c ∧ ∀ j < n, f j ≤ m
  | 0 => Or.inl rfl
  | n + 1 => by
    right
    rcases scanMax_spec f n with h0 | ⟨m, c, hsc, hc, hm, hall⟩
    · subst h0
      refine ⟨f 0, 0, by simp [scanMax], Nat.zero_lt_one, rfl, fun j hj => ?_⟩
      have hj0 : j = 0 := by omega
      exact hj0 ▸ le_refl _
    · by_cases hgt : f n > m
      · refine ⟨f n, n, by simp [scanMax, hsc, hgt], Nat.lt_succ_self n, rfl, fun j hj => ?_⟩
        rcases Nat.lt_succ_iff_lt_or_eq.mp hj with h | h
        · exact le_trans (hall j h) (le_of_lt hgt)
        · exact h ▸ le_refl _
      · refine ⟨m, c, by simp [scanMax, hsc, hgt], Nat.lt_succ_of_lt hc, hm, fun j hj => ?_⟩
        rcases Nat.lt_succ_iff_lt_or_eq.mp hj with h | h
        · exact hall j h
        · exact h ▸ not_lt.mp hgt

lemma rowMaxRaw_spec (a : List ℝ) (i : ℕ) :
    (rowMaxRaw a i).2 < NUM_CLASSES ∧
    (rowMaxRaw a i).1 = a.getD (i * STRIDE + 4 + (rowMaxRaw a i).2) 0 ∧
    ∀ j < NUM_CLASSES, a.getD (i * STRIDE + 4 + j) 0 ≤ (rowMaxRaw a i).1 := by
  rcases scanMax_spec (fun j => a.getD (i * STRIDE + 4 + j) 0) NUM_CLASSES with
    h | ⟨m, c, hsc, hc, hm, hall⟩
  · exact absurd h (by norm_num [NUM_CLASSES])
  · rw [rowMaxRaw, hsc]
    exact ⟨hc, hm, hall⟩

lemma sigmoid_pos (x : ℝ) : 0 < sigmoid x := by
  rw [sigmoid]
  positivity

lemma sigmoid_lt_one (x : ℝ) : sigmoid x < 1 := by
  rw [sigmoid, div_lt_one (by positivity)]
  linarith [Real.exp_pos (-x)]

lemma rowConfidence_mem (a : List ℝ) (i : ℕ) :
    0 ≤ rowConfidence a i ∧ rowConfidence a i ≤ 1 := by
  by_cases h : (rowMaxRaw a i).1 < 0 ∨ (rowMaxRaw a i).1 > 1
  · simp only [rowConfidence, if_pos h]
    exact ⟨le_of_lt (sigmoid_pos _), le_of_lt (sigmoid_lt_one _)⟩
  · simp only [rowConfidence, if_neg h]
    push_neg at h
    exact ⟨h.1, h.2⟩

lemma decodeRow_bounds (a : List ℝ) (lb : LetterboxInfo) (i : ℕ)
    (hw : 0 ≤ lb.origWidth) (hh : 0 ≤ lb.origHeight) :
    0 ≤ (decodeRow a lb i).x1 ∧ (decodeRow a lb i).x1 ≤ lb.origWidth ∧
    0 ≤ (decodeRow a lb i).x2 ∧ (decodeRow a lb i).x2 ≤ lb.origWidth ∧
    0 ≤ (decodeRow a lb i).y1 ∧ (decodeRow a lb i).y1 ≤ lb.origHeight ∧
    0 ≤ (decodeRow a lb i).y2 ∧ (decodeRow a lb i).y2 ≤ lb.origHeight ∧
    (decodeRow a lb i).confidence = rowConfidence a i ∧
    (decodeRow a lb i).cls = (rowMaxRaw a i).2 := by
  simp only [decodeRow]
  exact ⟨le_max_left 0 _, max_le hw (min_le_left _ _),
    le_max_left 0 _, max_le hw (min_le_left _ _),
    le_max_left 0 _, max_le hh (min_le_left _ _),
    le_max_left 0 _, max_le hh (min_le_left _ _), by trivial, by trivial⟩

lemma decodeRows_eq (a : List ℝ) (lb : LetterboxInfo) : ∀ n i : ℕ,
    decodeRows a lb i n =
      ((List.range' i (min n (a.length / STRIDE - i))).map (decodeRow a lb)).filter
        fun d => decide (CONFIDENCE_THRESHOLD < d.confidence)
  | 0, i => by simp [decodeRows]
  | n + 1, i => by
    by_cases hfit : i * STRIDE + STRIDE > a.length
    · have h1 : a.length < (i + 1) * STRIDE := by
        rw [add_mul, one_mul]
        omega
      have h2 : a.length / STRIDE < i + 1 :=
        (Nat.div_lt_iff_lt_mul (by norm_num [STRIDE])).mpr h1
      have h3 : a.length / STRIDE - i = 0 := by omega
      simp only [decodeRows]
      rw [if_pos hfit, h3]
      simp
    · push_neg at hfit
      have h1 : (i + 1) * STRIDE ≤ a.length := by
        rw [add_mul, one_mul]
        omega
      have h2 : i + 1 ≤ a.length / STRIDE :=
        (Nat.le_div_iff_mul_le (by norm_num [STRIDE])).mpr h1
      have hmin : min (n + 1) (a.length / STRIDE - i) =
          min n (a.length / STRIDE - (i + 1)) + 1 := by omega
      rw [decodeRows.eq_def]
      simp only [if_neg (not_lt.mpr hfit)]
      rw [hmin, List.range'_succ, List.map_cons, List.filter_cons,
        decodeRows_eq a lb n (i + 1)]
      by_cases hconf : (decodeRow a lb i).confidence > CONFIDENCE_THRESHOLD
      · simp [hconf]
      · simp [hconf]

lemma decodeRows_mem (a : List ℝ) (lb : LetterboxInfo) (n i : ℕ) (d : Detection)
    (hd : d ∈ decodeRows a lb i n) :
    (∃ j, d = decodeRow a lb j) ∧ CONFIDENCE_THRESHOLD < d.confidence := by
  rw [decodeRows_eq] at hd
  rcases List.mem_filter.mp hd with ⟨hmem, hp⟩
  rcases List.mem_map.mp hmem with ⟨j, _, hj⟩
  exact ⟨⟨j, hj.symm⟩, by simpa using hp⟩

lemma postprocess_ok (data : List ℝ) (shape : List ℕ) (lb : LetterboxInfo)
    (out : List Detection) (h : postprocess data shape lb = Except.ok out) :
    ∃ numDetections isTransposed,
      resolveShape shape data.length = Except.ok (numDetections, isTransposed) ∧
      out = (nms (decodeRows
          (if isTransposed then transposeData data numDetections STRIDE else data)
          lb 0 numDetections) IOU_THRESHOLD).take MAX_DETECTIONS := by
  rw [postprocess] at h
  cases hres : resolveShape shape data.length with
  | error e =>
    rw [hres] at h
    cases h
  | ok p =>
    obtain ⟨n, tr⟩ := p
    rw [hres] at h
    exact ⟨n, tr, rfl, (Except.ok.inj h).symm⟩

lemma getD_replicate (x d : ℝ) : ∀ n k : ℕ, k < n → (List.replicate n x).getD k d = x
  | n + 1, 0, _ => by rw [List.replicate_succ, List.getD_cons_zero]
  | n + 1, k + 1, h => by
    rw [List.replicate_succ, List.getD_cons_succ]
    exact getD_replicate x d n k (by omega)

lemma scanMax_congr (f g : ℕ → ℝ) : ∀ n : ℕ, (∀ j < n, f j = g j) → scanMax f n = scanMax g n
  | 0, _ => rfl
  | n + 1, h => by
    have hrec := scanMax_congr f g n fun j hj => h j (Nat.lt_succ_of_lt hj)
    simp only [scanMax, hrec, h n (Nat.lt_succ_self n)]

lemma scanMax_const (c : ℝ) : ∀ n : ℕ, scanMax (fun _ => c) (n + 1) = some (c, 0)
  | 0 => by simp [scanMax]
  | n + 1 => by
    rw [scanMax, scanMax_const c n]
    simp

lemma rowMaxRaw_row (v0 v1 v2 v3 s : ℝ) :
    rowMaxRaw (v0 :: v1 :: v2 :: v3 :: List.replicate 80 s) 0 = (s, 0) := by
  have hf : ∀ j < NUM_CLASSES,
      (v0 :: v1 :: v2 :: v3 :: List.replicate 80 s).getD (0 * STRIDE + 4 + j) 0 =
        (fun _ : ℕ => s) j := by
    intro j hj
    rw [show 0 * STRIDE + 4 + j = (((j + 1) + 1) + 1) + 1 from by omega,
      List.getD_cons_succ, List.getD_cons_succ, List.getD_cons_succ, List.getD_cons_succ]
    exact getD_replicate s 0 80 j (by simpa [NUM_CLASSES] using hj)
  rw [rowMaxRaw, scanMax_congr _ _ NUM_CLASSES hf,
    show NUM_CLASSES = 79 + 1 from rfl, scanMax_const]
  rfl

lemma decodeRow_hit : decodeRow rowHit lbSquare 0 = dHit := by
  have hmax : rowMaxRaw rowHit 0 = (1, 0) := rowMaxRaw_row 1 1 2 2 1
  have hconf : rowConfidence rowHit 0 = 1 := by
    simp only [rowConfidence, hmax]
    norm_num
  have g0 : rowHit.getD (0 * STRIDE) 0 = 1 := rfl
  have g1 : rowHit.getD (0 * STRIDE + 1) 0 = 1 := rfl
  have g2 : rowHit.getD (0 * STRIDE + 2) 0 = 2 := rfl
  have g3 : rowHit.getD (0 * STRIDE + 3) 0 = 2 := rfl
  simp only [decodeRow, hmax, hconf, g0, g1, g2, g3, lbSquare, MODEL_SIZE, dHit]
  norm_num [Detection.mk.injEq, min_def, max_def]

lemma decodeRow_neg : decodeRow rowNeg lbSquare 0 = dNeg := by
  have hmax : rowMaxRaw rowNeg 0 = (1, 0) := rowMaxRaw_row 1 1 (-1) (-1) 1
  have hconf : rowConfidence rowNeg 0 = 1 := by
    simp only [rowConfidence, hmax]
    norm_num
  have g0 : rowNeg.getD (0 * STRIDE) 0 = 1 := rfl
  have g1 : rowNeg.getD (0 * STRIDE + 1) 0 = 1 := rfl
  have g2 : rowNeg.getD (0 * STRIDE + 2) 0 = -1 := rfl
  have g3 : rowNeg.getD (0 * STRIDE + 3) 0 = -1 := rfl
  simp only [decodeRow, hmax, hconf, g0, g1, g2, g3, lbSquare, MODEL_SIZE, dNeg]
  norm_num [Detection.mk.injEq, min_def, max_def]

lemma nms_singleton (d : Detection) : nms [d] IOU_THRESHOLD = [d] := by
  rw [nms, List.mergeSort_singleton]
  simp only [nmsLoop, List.filter_nil]

lemma run_hit : postprocess rowHit [1, 84] lbSquare = Except.ok [dHit] := by
  have hres : resolveShape [1, 84] rowHit.length = Except.ok (1, false) := rfl
  have hrows : decodeRows rowHit lbSquare 0 1 = [dHit] := by
    simp only [decodeRows]
    rw [if_neg (by norm_num [rowHit, STRIDE]), decodeRow_hit,
      if_pos (by norm_num [dHit, CONFIDENCE_THRESHOLD])]
  simp only [postprocess, hres, Bool.false_eq_true, if_false, hrows, nms_singleton]
  rfl

lemma run_neg : postprocess rowNeg [1, 84] lbSquare = Except.ok [dNeg] := by
  have hres : resolveShape [1, 84] rowNeg.length = Except.ok (1, false) := rfl
  have hrows : decodeRows rowNeg lbSquare 0 1 = [dNeg] := by
    simp only [decodeRows]
    rw [if_neg (by norm_num [rowNeg, STRIDE]), decodeRow_neg,
      if_pos (by norm_num [dNeg, CONFIDENCE_THRESHOLD])]
  simp only [postprocess, hres, Bool.false_eq_true, if_false, hrows, nms_singleton]
  rfl

/-- C2 (counterexample): under the identity 640×640 letterbox (whose
`ratio`, `origWidth`, `origHeight` are positive), the candidate row
`rowNeg` with negative width/height is emitted with `x1 > x2`: the claimed
invariant `x1 ≤ x2` fails. -/
theorem C2_detection_bounds_counterexample :
    0 < lbSquare.ratio ∧ 0 < lbSquare.origWidth ∧ 0 < lbSquare.origHeight ∧
    postprocess rowNeg [1, 84] lbSquare = Except.ok [dNeg] ∧
    dNeg ∈ [dNeg] ∧ ¬ dNeg.x1 ≤ dNeg.x2 := by
  refine ⟨by norm_num [lbSquare], by norm_num [lbSquare], by norm_num [lbSquare],
    run_neg, List.mem_singleton.mpr rfl, by norm_num [dNeg]⟩

/-- C2 (amended): for any resolved output buffer and any letterbox
transform with positive ratio and original dimensions, every emitted
Detection has each coordinate clamped into the original image
(`0 ≤ x1, x2 ≤ origWidth` and `0 ≤ y1, y2 ≤ origHeight`), confidence in
`[0, 1]`, and class below 80. (The orderings `x1 ≤ x2`, `y1 ≤ y2` of the
original claim fail for candidates with negative width or height, see the
counterexample.) -/
theorem C2_detection_bounds_amended (data : List ℝ) (shape : List ℕ) (lb : LetterboxInfo)
    (_hr : 0 < lb.ratio) (hw : 0 < lb.origWidth) (hh : 0 < lb.origHeight)
    (out : List Detection) (hpp : postprocess data shape lb = Except.ok out)
    (d : Detection) (hd : d ∈ out) :
    0 ≤ d.x1 ∧ d.x1 ≤ lb.origWidth ∧ 0 ≤ d.x2 ∧ d.x2 ≤ lb.origWidth ∧
    0 ≤ d.y1 ∧ d.y1 ≤ lb.origHeight ∧ 0 ≤ d.y2 ∧ d.y2 ≤ lb.origHeight ∧
    0 ≤ d.confidence ∧ d.confidence ≤ 1 ∧ d.cls < NUM_CLASSES := by
  obtain ⟨N, tr, hres, hout⟩ := postprocess_ok data shape lb out hpp
  subst hout
  have hd1 := List.mem_of_mem_take hd
  rw [nms] at hd1
  have hd2 := List.mem_mergeSort.mp (nmsLoop_mem _ _ hd1)
  obtain ⟨⟨j, hdj⟩, _⟩ := decodeRows_mem _ _ _ _ _ hd2
  subst hdj
  obtain ⟨b1, b2, b3, b4, b5, b6, b7, b8, hcf, hcl⟩ :=
    decodeRow_bounds _ lb j (le_of_lt hw) (le_of_lt hh)
  refine ⟨b1, b2, b3, b4, b5, b6, b7, b8, ?_, ?_, ?_⟩
  · rw [hcf]
    exact (rowConfidence_mem _ _).1
  · rw [hcf]
    exact (rowConfidence_mem _ _).2
  · rw [hcl]
    exact (rowMaxRaw_spec _ _).1

/-- C6: among the rows the decode loop processes, a candidate is kept
exactly when its confidence exceeds the 0.5 threshold (the loop's output
is the filter of the decoded rows), and consequently every detection of a
successful pipeline run has confidence strictly above 0.5. -/
theorem C6_confidence_floor (accessData : List ℝ) (lb : LetterboxInfo) (n : ℕ)
    (data : List ℝ) (shape : List ℕ) (out : List Detection)
    (hpp : postprocess data shape lb = Except.ok out) :
    decodeRows accessData lb 0 n =
      ((List.range' 0 (min n (accessData.length / STRIDE))).map (decodeRow accessData lb)).filter
        (fun d => decide (CONFIDENCE_THRESHOLD < d.confidence)) ∧
    ∀ d ∈ out, CONFIDENCE_THRESHOLD < d.confidence := by
  constructor
  · simpa using decodeRows_eq accessData lb n 0
  · intro d hd
    obtain ⟨N, tr, hres, hout⟩ := postprocess_ok data shape lb out hpp
    subst hout
    have hd1 := List.mem_of_mem_take hd
    rw [nms] at hd1
    exact (decodeRows_mem _ _ _ _ _ (List.mem_mergeSort.mp (nmsLoop_mem _ _ hd1))).2

/-- C8: when the resolved (non-transposed) buffer is shorter than
`numCandidates * 84`, the pipeline still succeeds, and it decodes exactly
the `length / 84` complete rows that fit in the buffer. -/
theorem C8_graceful_truncation (data : List ℝ) (shape : List ℕ) (lb : LetterboxInfo) (N : ℕ)
    (hres : resolveShape shape data.length = Except.ok (N, false))
    (hshort : data.length < N * STRIDE) :
    postprocess data shape lb =
      Except.ok ((nms (decodeRows data lb 0 (data.length / STRIDE)) IOU_THRESHOLD).take
        MAX_DETECTIONS) := by
  have hN : data.length / STRIDE < N := (Nat.div_lt_iff_lt_mul (by norm_num [STRIDE])).mpr hshort
  have hsub : data.length / STRIDE - 0 = data.length / STRIDE := Nat.sub_zero _
  have h1 : min N (data.length / STRIDE - 0) = data.length / STRIDE - 0 := by
    rw [hsub]
    exact min_eq_right (le_of_lt hN)
  have h2 : min (data.length / STRIDE) (data.length / STRIDE - 0) = data.length / STRIDE - 0 := by
    rw [hsub]
    exact min_self _
  simp only [postprocess, hres, Bool.false_eq_true, if_false]
  rw [decodeRows_eq data lb N 0, decodeRows_eq data lb (data.length / STRIDE) 0, h1, h2]

/-- C9: a successful pipeline run returns at most `MAX_DETECTIONS = 100`
detections, whatever survives thresholding and suppression. -/
theorem C9_cardinality_cap (data : List ℝ) (shape : List ℕ) (lb : LetterboxInfo)
    (out : List Detection) (hpp : postprocess data shape lb = Except.ok out) :
    out.length ≤ MAX_DETECTIONS := by
  obtain ⟨N, tr, hres, hout⟩ := postprocess_ok data shape lb out hpp
  subst hout
  exact List.length_take_le _ _

/-- C1 (counterexample): a rank-3 tensor with dims `[1, 84, 2]` and a
matching 168-element buffer resolves through the fallback to 2 candidates
WITHOUT transposition: only `N = 8400` takes the transposed path, so the
claimed `[1, 84, N]` row of the decision table fails for `N = 2`. -/
theorem C1_shape_resolution_counterexample :
    resolveShape [1, 84, 2] (84 * 2) = Except.ok (2, false) ∧
    Except.ok ((2 : ℕ), false) ≠ (Except.ok ((2 : ℕ), true) : Except InferenceError (ℕ × Bool)) := by
  refine ⟨rfl, fun h => ?_⟩
  simp at h

/-- C1 (amended): dims `[1, 84, 8400]` resolve to 8400 candidates with
transposition; dims `[1, 84, N]` with `N ≠ 8400` resolve through the
fallback to `N` candidates without transposition; dims `[1, N, 84]`
resolve to `N` candidates without transposition; and the transposed buffer
reads element `(candidate i, channel c)` from `raw[c*N + i]`. -/
theorem C1_shape_resolution_amended (N : ℕ) (hN : 0 < N) :
    resolveShape [1, 84, 8400] (84 * 8400) = Except.ok (8400, true) ∧
    (N ≠ 8400 → resolveShape [1, 84, N] (84 * N) = Except.ok (N, false)) ∧
    resolveShape [1, N, 84] (N * 84) = Except.ok (N, false) ∧
    ∀ (data : List ℝ) (i c : ℕ), i < N → c < STRIDE →
      (transposeData data N STRIDE).getD (i * STRIDE + c) 0 = data.getD (c * N + i) 0 := by
  have h84 : (0 : ℕ) < 84 := by norm_num
  refine ⟨rfl, fun hne => ?_, ?_, ?_⟩
  · have hdiv : 84 * N / STRIDE = N := by
      rw [STRIDE]
      exact Nat.mul_div_cancel_left N h84
    simp [resolveShape, hne, hdiv, hN.ne']
  · by_cases hN84 : N = 8400
    · subst hN84
      rfl
    · have hdiv : N * 84 / STRIDE = N := by
        rw [STRIDE]
        exact Nat.mul_div_cancel N h84
      simp [resolveShape, hN84, hdiv, hN.ne']
  · intro data i c hi hc
    have hk : i * STRIDE + c < N * STRIDE := by
      calc i * STRIDE + c < i * STRIDE + STRIDE := by omega
        _ = (i + 1) * STRIDE := by ring
        _ ≤ N * STRIDE := Nat.mul_le_mul_right _ hi
    have hmod : (i * STRIDE + c) % STRIDE = c := by
      rw [mul_comm i STRIDE, Nat.mul_add_mod, Nat.mod_eq_of_lt hc]
    have hdiv2 : (i * STRIDE + c) / STRIDE = i := by
      rw [mul_comm, Nat.mul_add_div (by norm_num [STRIDE]), Nat.div_eq_of_lt hc, Nat.add_zero]
    rw [transposeData, List.getD_eq_getElem?_getD, List.getElem?_map, List.getElem?_range hk]
    simp [hmod, hdiv2]

/-- C5: the confidence used for thresholding equals the logistic function
`1/(1+e^-x)` of the row's maximum raw class score when that score is
negative or above 1, and equals the raw score itself when it lies in
`[0, 1]`; the tracked score is an upper bound of all 80 class scores, and
it is exactly the confidence the decoder stores in the Detection. -/
theorem C5_confidence_sniffing (accessData : List ℝ) (i : ℕ) :
    ((rowMaxRaw accessData i).1 < 0 ∨ 1 < (rowMaxRaw accessData i).1 →
      rowConfidence accessData i = 1 / (1 + Real.exp (-(rowMaxRaw accessData i).1))) ∧
    (0 ≤ (rowMaxRaw accessData i).1 → (rowMaxRaw accessData i).1 ≤ 1 →
      rowConfidence accessData i = (rowMaxRaw accessData i).1) ∧
    (∀ j < NUM_CLASSES, accessData.getD (i * STRIDE + 4 + j) 0 ≤ (rowMaxRaw accessData i).1) ∧
    ∀ lb : LetterboxInfo, (decodeRow accessData lb i).confidence = rowConfidence accessData i := by
  refine ⟨fun h => ?_, fun h0 h1 => ?_, (rowMaxRaw_spec accessData i).2.2, fun lb => rfl⟩
  · simp only [rowConfidence, sigmoid]
    rw [if_pos h]
  · simp only [rowConfidence]
    rw [if_neg]
    push_neg
    exact ⟨h0, h1⟩

/-- C4: the letterbox transform has `ratio = min(640/w, 640/h)`, left/top
pads `floor((640 - round(dim*ratio))/2)`, pads and rounded content summing
to 640 on each axis, and for a 640×640 source `ratio = 1` with zero
pads. -/
theorem C4_letterbox_invariants (w h : ℕ) (_hw : 0 < w) (_hh : 0 < h) :
    (letterboxParams w h).ratio = min (640 / (w : ℚ)) (640 / (h : ℚ)) ∧
    (letterboxParams w h).padLeft =
      ⌊((640 : ℚ) - (round ((w : ℚ) * (letterboxParams w h).ratio) : ℚ)) / 2⌋ ∧
    (letterboxParams w h).padTop =
      ⌊((640 : ℚ) - (round ((h : ℚ) * (letterboxParams w h).ratio) : ℚ)) / 2⌋ ∧
    (letterboxParams w h).padLeft + (letterboxParams w h).padRight +
      round ((w : ℚ) * (letterboxParams w h).ratio) = 640 ∧
    (letterboxParams w h).padTop + (letterboxParams w h).padBottom +
      round ((h : ℚ) * (letterboxParams w h).ratio) = 640 ∧
    (w = 640 → h = 640 →
      (letterboxParams w h).ratio = 1 ∧ (letterboxParams w h).padLeft = 0 ∧
      (letterboxParams w h).padTop = 0) := by
  refine ⟨rfl, rfl, rfl, ?_, ?_, ?_⟩
  · simp only [letterboxParams]
    omega
  · simp only [letterboxParams]
    omega
  · rintro rfl rfl
    have hr : (letterboxParams 640 640).ratio = 1 := by
      simp only [letterboxParams]
      norm_num
    refine ⟨hr, ?_, ?_⟩ <;>
      · show (⌊((640 : ℚ) - (round (((640 : ℕ) : ℚ) * (letterboxParams 640 640).ratio) : ℚ)) / 2⌋ = 0)
        rw [hr]
        norm_num [round_eq]

/-- C1 witness: the amended shape-resolution theorem applied at `N = 2`. -/
theorem C1_shape_resolution_witness :
    (0 : ℕ) < 2 ∧ resolveShape [1, 84, 2] (84 * 2) = Except.ok (2, false) :=
  ⟨by norm_num, (C1_shape_resolution_amended 2 (by norm_num)).2.1 (by norm_num)⟩

/-- C2 witness: the amended bounds theorem applied to a concrete run that
emits one detection. -/
theorem C2_detection_bounds_witness :
    0 ≤ dHit.x1 ∧ dHit.x1 ≤ lbSquare.origWidth ∧
    0 ≤ dHit.x2 ∧ dHit.x2 ≤ lbSquare.origWidth ∧
    0 ≤ dHit.y1 ∧ dHit.y1 ≤ lbSquare.origHeight ∧
    0 ≤ dHit.y2 ∧ dHit.y2 ≤ lbSquare.origHeight ∧
    0 ≤ dHit.confidence ∧ dHit.confidence ≤ 1 ∧ dHit.cls < NUM_CLASSES :=
  C2_detection_bounds_amended rowHit [1, 84] lbSquare (by norm_num [lbSquare])
    (by norm_num [lbSquare]) (by norm_num [lbSquare]) [dHit] run_hit dHit
    (List.mem_singleton.mpr rfl)

/-- C3 witness: the two-box suppression theorem applied to two identical
boxes of confidences 0.9 and 0.8 (IoU 1). -/
theorem C3_two_box_suppression_witness :
    nms [boxHigh, boxLow] IOU_THRESHOLD =
      [if boxLow.confidence < boxHigh.confidence then boxHigh else boxLow] :=
  C3_two_box_suppression boxHigh boxLow
    (by norm_num [iou, boxHigh, boxLow, IOU_THRESHOLD, max_def, min_def])
    (by norm_num [boxHigh, boxLow])

/-- C4 witness: the letterbox theorem applied to a 640×640 source. -/
theorem C4_letterbox_witness :
    (letterboxParams 640 640).ratio = 1 ∧ (letterboxParams 640 640).padLeft = 0 ∧
    (letterboxParams 640 640).padTop = 0 :=
  (C4_letterbox_invariants 640 640 (by norm_num) (by norm_num)).2.2.2.2.2 rfl rfl

/-- C6 witness: the threshold theorem applied to the empty buffer and the
concrete one-detection run. -/
theorem C6_confidence_floor_witness :
    decodeRows [] lbSquare 0 0 =
      ((List.range' 0 (min 0 (([] : List ℝ).length / STRIDE))).map (decodeRow [] lbSquare)).filter
        (fun d => decide (CONFIDENCE_THRESHOLD < d.confidence)) ∧
    ∀ d ∈ [dHit], CONFIDENCE_THRESHOLD < d.confidence :=
  C6_confidence_floor [] lbSquare 0 rowHit [1, 84] [dHit] run_hit

/-- C8 witness: the truncation theorem applied to an 84-element zero
buffer declared as `[2, 84]` (two rows, only one fits). -/
theorem C8_graceful_truncation_witness :
    postprocess (List.replicate 84 (0 : ℝ)) [2, 84] lbSquare =
      Except.ok ((nms (decodeRows (List.replicate 84 (0 : ℝ)) lbSquare 0
        ((List.replicate 84 (0 : ℝ)).length / STRIDE)) IOU_THRESHOLD).take MAX_DETECTIONS) :=
  C8_graceful_truncation (List.replicate 84 (0 : ℝ)) [2, 84] lbSquare 2
    (by
      rw [List.length_replicate]
      rfl)
    (by
      rw [List.length_replicate, STRIDE]
      norm_num)

/-- C9 witness: the cardinality-cap theorem applied to an empty run. -/
theorem C9_cardinality_cap_witness : ([] : List Detection).length ≤ MAX_DETECTIONS :=
  C9_cardinality_cap [] [5, 84] lbSquare []
    (by
      have hres : resolveShape [5, 84] ([] : List ℝ).length = Except.ok (5, false) := rfl
      have hrows : decodeRows [] lbSquare 0 5 = [] := by
        rw [decodeRows_eq]
        simp
      simp only [postprocess, hres, Bool.false_eq_true, if_false, hrows]
      rw [nms, List.mergeSort_nil]
      simp only [nmsLoop, List.take_nil])

end Yolo
